import Mathlib

/-!
Verification development for the TurboTrader-AI signal-scoring and
position-management engine.

The first part embeds the order executor (`executor.py`): the position
dictionary and trade log, `execute_buy`, `execute_sell` and
`close_all_positions`.  Prices and quantities are modelled as exact
rationals; the market-data / order-execution provider is modelled at its
interface boundary as a function from symbols to `Option` prices, where
`none` models a raised provider error (`get_current_price` inside the
executor's `try` block).  The Python position dictionary is modelled as an
association list with in-place-update insert semantics, and the trade
dictionaries as a fixed-shape record plus a key-set function giving the
exact dictionary keys built by the source.

The second part embeds the indicator module (`indicators.py`): sigmoid
normalization, the four component scorers, Wilder RSI and the weighted
combined score, with Python floats modelled as exact reals.
-/

namespace TurboTrader

/-- Side of a trade record; the source stores it under the dict key
`type` with values `"BUY"` / `"SELL"`. -/
inductive TradeType where
  | BUY
  | SELL
deriving DecidableEq, Repr

/-- One trade record as built by `execute_buy` / `execute_sell`.
`price` is the value stored under `entry_price` (BUY) or `exit_price`
(SELL).  The `timestamp` entry (`datetime.now()`) carries no information
the claims touch and is kept only in `tradeFields`. -/
structure Trade where
  symbol : String
  ttype : TradeType
  quantity : ℚ
  price : ℚ
  reason : String
deriving DecidableEq, Repr

/-- The exact key set of the Python dict literal that `execute_buy`
(for BUY) or `execute_sell` (for SELL) appends to `self.trades`. -/
def tradeFields (t : Trade) : List String :=
  match t.ttype with
  | TradeType.BUY => ["symbol", "type", "quantity", "entry_price", "timestamp", "reason"]
  | TradeType.SELL => ["symbol", "type", "quantity", "exit_price", "timestamp", "reason"]

/-- Models `self.positions[symbol] = trade` on a Python dict: replace the value
at an existing key in place, otherwise append the new binding. -/
def dictInsert (d : List (String × Trade)) (k : String) (v : Trade) : List (String × Trade) :=
  match d with
  | [] => [(k, v)]
  | (k', v') :: rest => if k' = k then (k, v) :: rest else (k', v') :: dictInsert rest k v

/-- Models `symbol in self.positions` / `self.positions[symbol]`. -/
def dictLookup (d : List (String × Trade)) (k : String) : Option Trade :=
  match d with
  | [] => none
  | (k', v') :: rest => if k' = k then some v' else dictLookup rest k

/-- Models `del self.positions[symbol]`. -/
def dictErase (d : List (String × Trade)) (k : String) : List (String × Trade) :=
  match d with
  | [] => []
  | (k', v') :: rest => if k' = k then rest else (k', v') :: dictErase rest k

/-- The provider at its interface boundary: `get_current_price` either
returns a price or raises a provider error (`none`). -/
structure Connector where
  price : String → Option ℚ

/-- The order dict returned by a successful `place_buy_order` /
`place_sell_order`, reduced to the fields the executor uses. -/
structure Order where
  symbol : String
  quantity : ℚ
deriving DecidableEq, Repr

/-- State of `OrderExecutor`: `self.positions` and `self.trades`. -/
structure ExecState where
  positions : List (String × Trade)
  trades : List Trade
deriving DecidableEq, Repr

/-- Constructor `OrderExecutor.__init__`: empty position dict, empty trade list. -/
def initState : ExecState := ⟨[], []⟩

/-- Method `execute_buy`: fetch the price, place the order, append the BUY trade
and store it as the open position.  A provider error is caught by the
`except` clause and the method returns `{}` (modelled `none`) with the
state untouched. -/
def execute_buy (c : Connector) (s : ExecState) (symbol : String) (quantity : ℚ)
    (reason : String) : ExecState × Option Order :=
  match c.price symbol with
  | none => (s, none)
  | some price =>
      let trade : Trade := ⟨symbol, TradeType.BUY, quantity, price, reason⟩
      (⟨dictInsert s.positions symbol trade, s.trades ++ [trade]⟩, some ⟨symbol, quantity⟩)

/-- Result of `execute_sell`: the new state, the returned order (`none`
models the `except` clause returning `{}`), and the realized P&L value
the method logs when a position existed (`pnl = (price - entry) * quantity`). -/
structure SellOutcome where
  state : ExecState
  order : Option Order
  loggedPnl : Option ℚ
deriving DecidableEq, Repr

/-- Method `execute_sell`: fetch the price, place the order, append the SELL
trade unconditionally; only if a position exists compute the P&L, log it
and delete the position.  A provider error leaves the state untouched.
When the stored entry price is `0`, `pnl_percent` raises
`ZeroDivisionError` after the trade was appended, so the position is kept
and `{}` is returned without logging a P&L. -/
def execute_sell (c : Connector) (s : ExecState) (symbol : String) (quantity : ℚ)
    (reason : String) : SellOutcome :=
  match c.price symbol with
  | none => ⟨s, none, none⟩
  | some price =>
      let trade : Trade := ⟨symbol, TradeType.SELL, quantity, price, reason⟩
      match dictLookup s.positions symbol with
      | none => ⟨⟨s.positions, s.trades ++ [trade]⟩, some ⟨symbol, quantity⟩, none⟩
      | some pos =>
          if pos.price = 0 then
            ⟨⟨s.positions, s.trades ++ [trade]⟩, none, none⟩
          else
            ⟨⟨dictErase s.positions symbol, s.trades ++ [trade]⟩, some ⟨symbol, quantity⟩,
              some ((price - pos.price) * quantity)⟩

/-- One entry of the dict returned by `close_all_positions`:
`{'pnl': pnl, 'order': order}`. -/
structure CloseEntry where
  pnl : ℚ
  order : Option Order
deriving DecidableEq, Repr

/-- Method `close_all_positions`: iterate over a snapshot of the position keys;
for each, read the entry price and quantity from the current dict, fetch
the price, compute the P&L, sell with reason `"Close All"` and record
`{pnl, order}` under the symbol.  Any exception in the loop body (a
provider error on the price fetch, or a missing key) is caught, logged
and the loop continues with the next symbol, recording nothing. -/
def close_all_positions (c : Connector) (s : ExecState) :
    ExecState × List (String × CloseEntry) :=
  (s.positions.map Prod.fst).foldl
    (fun acc symbol =>
      match dictLookup acc.1.positions symbol with
      | none => acc
      | some pos =>
          match c.price symbol with
          | none => acc
          | some price =>
              let pnl := (price - pos.price) * pos.quantity
              let out := execute_sell c acc.1 symbol pos.quantity "Close All"
              (out.state, acc.2 ++ [(symbol, ⟨pnl, out.order⟩)]))
    (s, [])

/-- A buy or sell call against the executor. -/
inductive Op where
  | buy (symbol : String) (quantity : ℚ) (reason : String)
  | sell (symbol : String) (quantity : ℚ) (reason : String)

/-- Apply one buy/sell call, with the market state (connector) the call
sees, keeping only the executor state. -/
def applyOp (s : ExecState) (step : Connector × Op) : ExecState :=
  match step.2 with
  | Op.buy symbol q reason => (execute_buy step.1 s symbol q reason).1
  | Op.sell symbol q reason => (execute_sell step.1 s symbol q reason).state

/-- Run a sequence of buy/sell calls from a fresh executor. -/
def runOps (ops : List (Connector × Op)) : ExecState :=
  ops.foldl applyOp initState

/-- The ledger invariant: no two simultaneous position entries for the
same symbol key. -/
def NoDupSymbols (s : ExecState) : Prop := (s.positions.map Prod.fst).Nodup

theorem mem_keys_dictInsert (d : List (String × Trade)) (k a : String) (v : Trade) :
    a ∈ (dictInsert d k v).map Prod.fst ↔ a ∈ d.map Prod.fst ∨ a = k := by
  induction d with
  | nil => simp [dictInsert]
  | cons hd tl ih =>
      obtain ⟨k', v'⟩ := hd
      by_cases h : k' = k
      · subst h
        simp only [dictInsert, if_true, eq_self_iff_true, List.map_cons, List.mem_cons]
        tauto
      · simp only [dictInsert, if_neg h, List.map_cons, List.mem_cons, ih]
        tauto

theorem nodup_dictInsert (d : List (String × Trade)) (k : String) (v : Trade)
    (h : (d.map Prod.fst).Nodup) : ((dictInsert d k v).map Prod.fst).Nodup := by
  induction d with
  | nil => simp [dictInsert]
  | cons hd tl ih =>
      obtain ⟨k', v'⟩ := hd
      simp only [List.map_cons, List.nodup_cons] at h
      by_cases hk : k' = k
      · subst hk
        simpa [dictInsert] using h
      · simp only [dictInsert, if_neg hk, List.map_cons, List.nodup_cons]
        refine ⟨?_, ih h.2⟩
        rw [mem_keys_dictInsert]
        rintro (hmem | rfl)
        · exact h.1 hmem
        · exact hk rfl

theorem keys_dictErase_sublist (d : List (String × Trade)) (k : String) :
    ((dictErase d k).map Prod.fst).Sublist (d.map Prod.fst) := by
  induction d with
  | nil => simp [dictErase]
  | cons hd tl ih =>
      obtain ⟨k', v'⟩ := hd
      by_cases h : k' = k
      · simp only [dictErase, if_pos h, List.map_cons]
        exact List.sublist_cons_of_sublist k' (List.Sublist.refl _)
      · simp only [dictErase, if_neg h, List.map_cons]
        exact ih.cons₂ k'

theorem nodup_dictErase (d : List (String × Trade)) (k : String)
    (h : (d.map Prod.fst).Nodup) : ((dictErase d k).map Prod.fst).Nodup :=
  h.sublist (keys_dictErase_sublist d k)

theorem noDupSymbols_execute_buy (c : Connector) (s : ExecState) (symbol : String)
    (q : ℚ) (reason : String) (h : NoDupSymbols s) :
    NoDupSymbols (execute_buy c s symbol q reason).1 := by
  cases hp : c.price symbol with
  | none => simpa [execute_buy, hp, NoDupSymbols] using h
  | some p =>
      simpa [execute_buy, hp, NoDupSymbols] using nodup_dictInsert s.positions symbol _ h

theorem noDupSymbols_execute_sell (c : Connector) (s : ExecState) (symbol : String)
    (q : ℚ) (reason : String) (h : NoDupSymbols s) :
    NoDupSymbols (execute_sell c s symbol q reason).state := by
  cases hp : c.price symbol with
  | none => simpa [execute_sell, hp, NoDupSymbols] using h
  | some p =>
      cases hl : dictLookup s.positions symbol with
      | none => simpa [execute_sell, hp, hl, NoDupSymbols] using h
      | some pos =>
          by_cases hz : pos.price = 0
          · simpa [execute_sell, hp, hl, hz, NoDupSymbols] using h
          · simpa [execute_sell, hp, hl, hz, NoDupSymbols] using
              nodup_dictErase s.positions symbol h

theorem noDupSymbols_applyOp (s : ExecState) (step : Connector × Op)
    (h : NoDupSymbols s) : NoDupSymbols (applyOp s step) := by
  obtain ⟨c, op⟩ := step
  cases op with
  | buy symbol q reason =>
      simpa [applyOp] using noDupSymbols_execute_buy c s symbol q reason h
  | sell symbol q reason =>
      simpa [applyOp] using noDupSymbols_execute_sell c s symbol q reason h

/-- C1: for every sequence of buy/sell operations on the ledger, at most
one open `Position` exists per symbol at any time: the position
dictionary never holds two entries for the same symbol key. -/
theorem ledger_one_position_per_symbol (ops : List (Connector × Op)) :
    NoDupSymbols (runOps ops) := by
  have step : ∀ (l : List (Connector × Op)) (s : ExecState),
      NoDupSymbols s → NoDupSymbols (l.foldl applyOp s) := by
    intro l
    induction l with
    | nil => intro s h; exact h
    | cons hd tl ih =>
        intro s h
        exact ih _ (noDupSymbols_applyOp s hd h)
  exact step ops initState (by simp [NoDupSymbols, initState])

theorem dictLookup_dictInsert_self (d : List (String × Trade)) (k : String) (v : Trade) :
    dictLookup (dictInsert d k v) k = some v := by
  induction d with
  | nil => simp [dictInsert, dictLookup]
  | cons hd tl ih =>
      obtain ⟨k', v'⟩ := hd
      by_cases h : k' = k
      · subst h
        simp [dictInsert, dictLookup]
      · simp [dictInsert, dictLookup, h, ih]

/-- Example connector quoting the same price for every symbol. -/
def connAt (p : ℚ) : Connector := ⟨fun _ => some p⟩

/-- Connector for the partial-failure scenario: the provider answers for
`"B"` and raises for every other symbol. -/
def connPartial : Connector := ⟨fun sym => if sym = "B" then some 5 else none⟩

/-- State after `buy("A", 1)` at price 3 from a fresh executor. -/
def oneBuyState : ExecState := (execute_buy (connAt 3) initState "A" 1 "first").1

/-- Result of a second `buy("A", 2)` on top of the open `"A"` position. -/
def buyTwiceEx : ExecState × Option Order := execute_buy (connAt 3) oneBuyState "A" 2 "second"

/-- C2 (counterexample): with an open position for `"A"`, a second
`execute_buy` does not fail — it returns an order and silently replaces
the ledger entry for `"A"` with the new trade. -/
theorem buy_duplicate_not_rejected :
    dictLookup oneBuyState.positions "A" = some ⟨"A", TradeType.BUY, 1, 3, "first"⟩ ∧
    buyTwiceEx.2 = some ⟨"A", 2⟩ ∧
    buyTwiceEx.1.positions = [("A", ⟨"A", TradeType.BUY, 2, 3, "second"⟩)] := by
  decide

/-- C2 (amended): whenever the provider quotes a price, `execute_buy`
succeeds — even for a symbol whose position is already open — and
overwrites the ledger entry with the new BUY trade; no `AlreadyOpenError`
exists in the code. -/
theorem buy_on_open_position_overwrites (c : Connector) (s : ExecState) (symbol : String)
    (q : ℚ) (reason : String) (p : ℚ) (t₀ : Trade)
    (hp : c.price symbol = some p)
    (hopen : dictLookup s.positions symbol = some t₀) :
    (execute_buy c s symbol q reason).2 = some ⟨symbol, q⟩ ∧
    dictLookup (execute_buy c s symbol q reason).1.positions symbol
      = some ⟨symbol, TradeType.BUY, q, p, reason⟩ := by
  refine ⟨?_, ?_⟩
  · simp [execute_buy, hp]
  · simp [execute_buy, hp, dictLookup_dictInsert_self]

/-- Witness for the amended C2 at a concrete open position. -/
theorem buy_on_open_position_overwrites_witness :
    (execute_buy (connAt 3) oneBuyState "A" 2 "second").2 = some ⟨"A", 2⟩ ∧
    dictLookup (execute_buy (connAt 3) oneBuyState "A" 2 "second").1.positions "A"
      = some ⟨"A", TradeType.BUY, 2, 3, "second"⟩ :=
  buy_on_open_position_overwrites (connAt 3) oneBuyState "A" 2 "second" 3
    ⟨"A", TradeType.BUY, 1, 3, "first"⟩ rfl (by decide)

/-- Result of selling `"A"` from a fresh executor with no open position. -/
def sellNoPosEx : SellOutcome := execute_sell (connAt 3) initState "A" 1 "manual"

/-- C3 (counterexample): a sell on a symbol with no open position does
not fail — it returns an order and appends a SELL trade, so the trade
log changes. -/
theorem sell_without_position_not_rejected :
    dictLookup initState.positions "A" = none ∧
    sellNoPosEx.order = some ⟨"A", 1⟩ ∧
    sellNoPosEx.state.trades = [⟨"A", TradeType.SELL, 1, 3, "manual"⟩] := by
  decide

/-- C3 (amended): on a symbol with no open position, `execute_sell`
still places the order and appends the SELL trade; it merely skips the
P&L computation and position removal, leaving the position dict
unchanged; no `NoOpenPositionError` exists in the code. -/
theorem sell_without_position_appends_trade (c : Connector) (s : ExecState) (symbol : String)
    (q : ℚ) (reason : String) (p : ℚ)
    (hp : c.price symbol = some p)
    (hnone : dictLookup s.positions symbol = none) :
    execute_sell c s symbol q reason =
      ⟨⟨s.positions, s.trades ++ [⟨symbol, TradeType.SELL, q, p, reason⟩]⟩,
        some ⟨symbol, q⟩, none⟩ := by
  simp [execute_sell, hp, hnone]

/-- Witness for the amended C3 on a fresh executor. -/
theorem sell_without_position_appends_trade_witness :
    execute_sell (connAt 3) initState "A" 1 "manual" =
      ⟨⟨initState.positions, initState.trades ++ [⟨"A", TradeType.SELL, 1, 3, "manual"⟩]⟩,
        some ⟨"A", 1⟩, none⟩ :=
  sell_without_position_appends_trade (connAt 3) initState "A" 1 "manual" 3 rfl (by decide)

/-- State after `buy("A", 2)` at entry price 3. -/
def roundTripBuy : ExecState := (execute_buy (connAt 3) initState "A" 2 "open").1

/-- Outcome of the matching `sell("A", 2)` at exit price 5. -/
def roundTripSell : SellOutcome := execute_sell (connAt 5) roundTripBuy "A" 2 "close"

/-- C4 (counterexample): after the round trip `buy("A", 2)` at 3 then
`sell("A", 2)` at 5, the appended SELL trade record has exactly the keys
`symbol, type, quantity, exit_price, timestamp, reason` — it carries no
`realized_pnl` field. -/
theorem sell_trade_has_no_realized_pnl_field :
    roundTripSell.state.trades =
      [⟨"A", TradeType.BUY, 2, 3, "open"⟩, ⟨"A", TradeType.SELL, 2, 5, "close"⟩] ∧
    "realized_pnl" ∉ tradeFields ⟨"A", TradeType.SELL, 2, 5, "close"⟩ := by
  decide

/-- C4 (amended): from a fresh executor, `buy(S, q)` then `sell(S, q)`
leaves zero open positions and appends exactly two trades, BUY then
SELL; the P&L `(exit − entry) · q` is computed and logged by
`execute_sell` but is not stored on the SELL trade record, which has no
`realized_pnl` key. -/
theorem round_trip_closes_position (S : String) (q : ℚ) (rb rs : String)
    (c₁ c₂ : Connector) (p₁ p₂ : ℚ)
    (h₁ : c₁.price S = some p₁) (h₂ : c₂.price S = some p₂) (hp : p₁ ≠ 0) :
    (execute_sell c₂ (execute_buy c₁ initState S q rb).1 S q rs).state.positions = [] ∧
    (execute_sell c₂ (execute_buy c₁ initState S q rb).1 S q rs).state.trades =
      [⟨S, TradeType.BUY, q, p₁, rb⟩, ⟨S, TradeType.SELL, q, p₂, rs⟩] ∧
    (execute_sell c₂ (execute_buy c₁ initState S q rb).1 S q rs).loggedPnl =
      some ((p₂ - p₁) * q) ∧
    "realized_pnl" ∉ tradeFields ⟨S, TradeType.SELL, q, p₂, rs⟩ := by
  have hbuy : (execute_buy c₁ initState S q rb).1 =
      ⟨[(S, ⟨S, TradeType.BUY, q, p₁, rb⟩)], [⟨S, TradeType.BUY, q, p₁, rb⟩]⟩ := by
    simp [execute_buy, h₁, initState, dictInsert]
  rw [hbuy]
  refine ⟨?_, ?_, ?_, ?_⟩
  · simp [execute_sell, h₂, dictLookup, dictErase, hp]
  · simp [execute_sell, h₂, dictLookup, dictErase, hp]
  · simp [execute_sell, h₂, dictLookup, dictErase, hp]
  · simp [tradeFields]

/-- Witness for the amended C4 at entry 3, exit 5, quantity 2. -/
theorem round_trip_closes_position_witness :
    roundTripSell.state.positions = [] ∧
    roundTripSell.state.trades =
      [⟨"A", TradeType.BUY, 2, 3, "open"⟩, ⟨"A", TradeType.SELL, 2, 5, "close"⟩] ∧
    roundTripSell.loggedPnl = some ((5 - 3) * 2) ∧
    "realized_pnl" ∉ tradeFields ⟨"A", TradeType.SELL, 2, 5, "close"⟩ :=
  round_trip_closes_position "A" 2 "open" "close" (connAt 3) (connAt 5) 3 5 rfl rfl
    (by norm_num)

/-- Two open positions, `"A"` at entry 2 quantity 1 and `"B"` at entry 2
quantity 4, with an empty trade log. -/
def twoPosState : ExecState :=
  ⟨[("A", ⟨"A", TradeType.BUY, 1, 2, "openA"⟩), ("B", ⟨"B", TradeType.BUY, 4, 2, "openB"⟩)], []⟩

/-- C8 (counterexample): closing all positions when the provider raises
for `"A"` and answers for `"B"` returns a result dict whose only key is
`"B"` — the failed symbol `"A"` gets no entry at all, not an error
entry. -/
theorem close_all_drops_failed_symbol :
    connPartial.price "A" = none ∧
    "A" ∈ twoPosState.positions.map Prod.fst ∧
    (close_all_positions connPartial twoPosState).2.map Prod.fst = ["B"] := by
  decide

/-- C8 (amended): with two open positions where the provider raises for
the first symbol and answers for the second, `close_all_positions`
still closes and reports the second symbol, while the failure on the
first is only logged: its position stays open and it is silently absent
from the returned per-symbol result. -/
theorem close_all_partial_failure (A B : String) (tA tB : Trade) (tr : List Trade)
    (c : Connector) (pB : ℚ)
    (hAB : A ≠ B) (hA : c.price A = none) (hB : c.price B = some pB)
    (hzB : tB.price ≠ 0) :
    close_all_positions c ⟨[(A, tA), (B, tB)], tr⟩ =
      (⟨[(A, tA)], tr ++ [⟨B, TradeType.SELL, tB.quantity, pB, "Close All"⟩]⟩,
        [(B, ⟨(pB - tB.price) * tB.quantity, some ⟨B, tB.quantity⟩⟩)]) := by
  simp [close_all_positions, execute_sell, dictLookup, dictErase, hA, hB, hAB, hzB]

/-- Witness for the amended C8 on the concrete two-position state. -/
theorem close_all_partial_failure_witness :
    close_all_positions connPartial twoPosState =
      (⟨[("A", ⟨"A", TradeType.BUY, 1, 2, "openA"⟩)],
          [⟨"B", TradeType.SELL, 4, 5, "Close All"⟩]⟩,
        [("B", ⟨(5 - 2) * 4, some ⟨"B", 4⟩⟩)]) :=
  close_all_partial_failure "A" "B" ⟨"A", TradeType.BUY, 1, 2, "openA"⟩
    ⟨"B", TradeType.BUY, 4, 2, "openB"⟩ [] connPartial 5
    (by decide) rfl rfl (by norm_num)

/-- Models `np.mean`: population mean of a sample list (Python floats modelled
as exact reals). -/
noncomputable def listMean (l : List ℝ) : ℝ := l.sum / l.length

/-- Models `np.std`: population standard deviation, the square root of the mean
squared deviation. -/
noncomputable def listStd (l : List ℝ) : ℝ :=
  Real.sqrt ((l.map (fun x => (x - listMean l) ^ 2)).sum / l.length)

/-- Method `TechnicalIndicators.sigmoid_normalize` with steepness `k`
(`self.sigmoid_k`): inputs of length below 2 are returned unchanged; a
zero standard deviation yields the constant neutral 50 series; otherwise
each sample is z-scored, passed through the logistic function and scaled
to the 0-100 range. -/
noncomputable def sigmoid_normalize (k : ℝ) (data : List ℝ) : List ℝ :=
  if data.length < 2 then data
  else if listStd data = 0 then data.map (fun _ => 50)
  else data.map (fun x =>
    1 / (1 + Real.exp (-k * ((x - listMean data) / listStd data))) * 100)

theorem length_sigmoid_normalize (k : ℝ) (data : List ℝ) :
    (sigmoid_normalize k data).length = data.length := by
  unfold sigmoid_normalize
  split
  · rfl
  · split <;> simp

theorem listMean_const (l : List ℝ) (c : ℝ) (hne : l ≠ [])
    (h : ∀ a ∈ l, a = c) : listMean l = c := by
  have hsum : l.sum = l.length • c := List.sum_eq_card_nsmul l c h
  have hlen : (l.length : ℝ) ≠ 0 := Nat.cast_ne_zero.mpr (List.length_pos.2 hne).ne'
  rw [listMean, hsum, nsmul_eq_mul]
  field_simp

theorem listStd_const (l : List ℝ) (c : ℝ) (h : ∀ a ∈ l, a = c) :
    listStd l = 0 := by
  rcases eq_or_ne l [] with rfl | hne
  · simp [listStd]
  · have hmean := listMean_const l c hne h
    have hzero : (l.map (fun x => (x - listMean l) ^ 2)).sum = 0 := by
      apply List.sum_eq_zero
      intro x hx
      obtain ⟨a, ha, rfl⟩ := List.mem_map.1 hx
      rw [h a ha, hmean, sub_self]
      ring
    rw [listStd, hzero, zero_div, Real.sqrt_zero]

theorem sigmoid_normalize_const (k : ℝ) (l : List ℝ) (c : ℝ)
    (hlen : 2 ≤ l.length) (h : ∀ a ∈ l, a = c) :
    sigmoid_normalize k l = List.replicate l.length 50 := by
  rw [sigmoid_normalize, if_neg (by omega), if_pos (listStd_const l c h), List.map_const']

theorem sigmoid_normalize_mem_range (k : ℝ) (data : List ℝ)
    (hlen : 2 ≤ data.length) :
    ∀ x ∈ sigmoid_normalize k data, 0 ≤ x ∧ x ≤ 100 := by
  intro x hx
  rw [sigmoid_normalize, if_neg (by omega)] at hx
  by_cases hs : listStd data = 0
  · rw [if_pos hs] at hx
    obtain ⟨a, _, rfl⟩ := List.mem_map.1 hx
    norm_num
  · rw [if_neg hs] at hx
    obtain ⟨a, _, rfl⟩ := List.mem_map.1 hx
    have hexp : 0 < Real.exp (-k * ((a - listMean data) / listStd data)) := Real.exp_pos _
    constructor
    · positivity
    · have h1 : 1 / (1 + Real.exp (-k * ((a - listMean data) / listStd data))) ≤ 1 := by
        rw [div_le_one (by linarith)]
        linarith
      nlinarith

/-- C5 (amended): `sigmoid_normalize` always preserves the input length;
inputs of length below 2 are returned unchanged (so their values need
not lie in `[0, 100]`); for inputs of length at least 2 every output
value lies in `[0, 100]`, and a constant input yields exactly 50.0
everywhere. -/
theorem sigmoid_normalize_spec (k : ℝ) (data : List ℝ) (c : ℝ) :
    (sigmoid_normalize k data).length = data.length ∧
    (data.length < 2 → sigmoid_normalize k data = data) ∧
    (2 ≤ data.length → ∀ x ∈ sigmoid_normalize k data, 0 ≤ x ∧ x ≤ 100) ∧
    (2 ≤ data.length → (∀ a ∈ data, a = c) →
      sigmoid_normalize k data = List.replicate data.length 50) := by
  refine ⟨length_sigmoid_normalize k data, ?_, ?_, ?_⟩
  · intro h
    rw [sigmoid_normalize, if_pos h]
  · exact sigmoid_normalize_mem_range k data
  · intro hlen h
    exact sigmoid_normalize_const k data c hlen h

/-- Witness for the amended C5: on the constant input `[3, 3, 3]` the
output is `[50, 50, 50]` with length 3 and its value 50 is inside
`[0, 100]`; the single-element input `[200]` is returned unchanged. -/
theorem sigmoid_normalize_spec_witness :
    (sigmoid_normalize 1 [3, 3, 3]).length = 3 ∧
    sigmoid_normalize 1 [3, 3, 3] = List.replicate 3 50 ∧
    (0 : ℝ) ≤ 50 ∧ (50 : ℝ) ≤ 100 ∧
    sigmoid_normalize 1 [200] = [200] := by
  have h := sigmoid_normalize_spec 1 [3, 3, 3] 3
  have hc : ∀ a ∈ [(3 : ℝ), 3, 3], a = 3 := by
    intro a ha
    simp only [List.mem_cons, List.not_mem_nil, or_false] at ha
    rcases ha with rfl | rfl | rfl <;> rfl
  have hconst := h.2.2.2 (by norm_num) hc
  have hmem : (50 : ℝ) ∈ sigmoid_normalize 1 [3, 3, 3] := by
    rw [hconst]
    simp [List.mem_replicate]
  have hrange := h.2.2.1 (by norm_num) 50 hmem
  refine ⟨by simpa using h.1, by simpa using hconst, hrange.1, hrange.2, ?_⟩
  exact (sigmoid_normalize_spec 1 [200] 0).2.1 (by norm_num)

/-- C5 (counterexample): the length-1 input `[200]` is returned
unchanged by `sigmoid_normalize`, so the output value 200 lies outside
`[0, 100]`. -/
theorem sigmoid_normalize_out_of_range :
    sigmoid_normalize 1 [200] = [200] ∧ ¬ ((200 : ℝ) ≤ 100) := by
  constructor
  · rw [sigmoid_normalize, if_pos (by norm_num)]
  · norm_num

/-- Models `(closes / np.roll(closes, 1))[1:]`: rolling the series by one puts
each previous close under the current one, so after dropping the first
(wrapped) entry this is the list of consecutive ratios
`closes[i] / closes[i-1]`. -/
noncomputable def ratios (closes : List ℝ) : List ℝ :=
  (closes.zip (closes.drop 1)).map (fun p => p.2 / p.1)

/-- Method `calculate_volatility_score`: the standard deviation of the log
returns is broadcast into a constant series of the same length, which is
then sigmoid-normalized; the score is the last normalized value. -/
noncomputable def calculate_volatility_score (k : ℝ) (closes : List ℝ) : ℝ :=
  if closes.length < 2 then 50
  else
    (sigmoid_normalize k
      (List.replicate ((ratios closes).map Real.log).length
        (listStd ((ratios closes).map Real.log)))).getLastD 0

/-- Method `calculate_price_score`: simple returns, sigmoid-normalized; the
score is the last normalized value. -/
noncomputable def calculate_price_score (k : ℝ) (closes : List ℝ) : ℝ :=
  if closes.length < 2 then 50
  else (sigmoid_normalize k ((ratios closes).map (fun r => r - 1))).getLastD 0

theorem listStd_singleton (x : ℝ) : listStd [x] = 0 := by
  simp [listStd, listMean]

theorem getLastD_replicate (c : ℝ) :
    ∀ (m : Nat) (d : ℝ), (List.replicate (m + 1) c).getLastD d = c := by
  intro m
  induction m with
  | zero => intro d; rfl
  | succ n ih =>
      intro d
      rw [List.replicate_succ, List.getLastD_cons]
      exact ih c

/-- C6 (counterexample): the non-constant two-point close series
`[1, 2]` has a single log return, whose standard deviation is 0; the
length-1 series `[0]` passes through `sigmoid_normalize` unchanged, so
the volatility component is 0, not 50. -/
theorem volatility_score_zero_on_two_points :
    calculate_volatility_score 1 [1, 2] = 0 ∧ (0 : ℝ) ≠ 50 ∧ (1 : ℝ) ≠ 2 := by
  refine ⟨?_, by norm_num, by norm_num⟩
  rw [calculate_volatility_score, if_neg (by norm_num)]
  have hr : (ratios [(1 : ℝ), 2]).map Real.log = [Real.log (2 / 1)] := rfl
  rw [hr, listStd_singleton]
  rw [show (([Real.log (2 / 1)] : List ℝ)).length = 1 from rfl]
  rw [show (List.replicate 1 (0 : ℝ)) = [0] from rfl]
  rw [sigmoid_normalize, if_pos (by norm_num)]
  rfl

/-- C6 (amended): for every close series of length at least 3 the
volatility component is exactly 50: the broadcast σ-series has length at
least 2, so the constant-series rule of `sigmoid_normalize` applies.
For length exactly 2 the component is the raw value 0 instead. -/
theorem volatility_score_neutral (k : ℝ) (closes : List ℝ) (h : 3 ≤ closes.length) :
    calculate_volatility_score k closes = 50 := by
  rw [calculate_volatility_score, if_neg (by omega)]
  have hlen : 2 ≤ ((ratios closes).map Real.log).length := by
    simp only [ratios, List.length_map, List.length_zip, List.length_drop]
    omega
  have hconst := sigmoid_normalize_const k
      (List.replicate ((ratios closes).map Real.log).length
        (listStd ((ratios closes).map Real.log)))
      (listStd ((ratios closes).map Real.log))
      (by simpa using hlen)
      (fun a ha => List.eq_of_mem_replicate ha)
  rw [hconst]
  simp only [List.length_replicate]
  obtain ⟨m, hm⟩ : ∃ m, ((ratios closes).map Real.log).length = m + 1 :=
    ⟨((ratios closes).map Real.log).length - 1, by omega⟩
  rw [hm]
  exact getLastD_replicate 50 m 0

/-- Witness for the amended C6: a three-point series scores exactly 50. -/
theorem volatility_score_neutral_witness :
    calculate_volatility_score 1 [1, 2, 4] = 50 :=
  volatility_score_neutral 1 [1, 2, 4] (by norm_num)

/-- C9: for a two-point close series the return series has length 1 and
passes through `sigmoid_normalize` unchanged, so `calculate_price_score`
returns the raw simple return `c₂ / c₁ - 1`; in particular the score
can lie outside `[0, 100]`, as on the series `[1, 200]` where it is
199. -/
theorem price_score_two_points (k c₁ c₂ : ℝ) (h : c₁ ≠ 0) :
    calculate_price_score k [c₁, c₂] = c₂ / c₁ - 1 ∧
    100 < calculate_price_score k [(1 : ℝ), 200] := by
  constructor
  · rw [calculate_price_score, if_neg (by norm_num)]
    have hr : (ratios [c₁, c₂]).map (fun r => r - 1) = [c₂ / c₁ - 1] := rfl
    rw [hr, sigmoid_normalize, if_pos (by norm_num)]
    rfl
  · rw [calculate_price_score, if_neg (by norm_num)]
    have hr : (ratios [(1 : ℝ), 200]).map (fun r => r - 1) = [200 / 1 - 1] := rfl
    rw [hr, sigmoid_normalize, if_pos (by norm_num)]
    norm_num [List.getLastD]

/-- Witness for C9 on the series `[1, 200]`: the score is the raw
return 199, outside `[0, 100]`. -/
theorem price_score_two_points_witness :
    calculate_price_score 1 [(1 : ℝ), 200] = 200 / 1 - 1 ∧
    100 < calculate_price_score 1 [(1 : ℝ), 200] :=
  price_score_two_points 1 1 200 (by norm_num)

/-- numpy tail slice `l[-n:]`: the last `n` elements; `l[-0:]` is
`l[0:]`, the whole list. -/
def takeLast {α : Type} (n : Nat) (l : List α) : List α :=
  if n = 0 then l else l.drop (l.length - n)

/-- Method `calculate_volume_score`: the last `lookback` volumes, normalized;
the score is the last normalized value. -/
noncomputable def calculate_volume_score (k : ℝ) (lookback : Nat) (volumes : List ℝ) : ℝ :=
  if volumes.length < 2 then 50
  else (sigmoid_normalize k (takeLast lookback volumes)).getLastD 0

/-- Entry `i` of the `avg_gains` / `avg_losses` array of
`calculate_rsi`: zero-initialized below `period`, seeded with the simple
mean `init` at index `period`, then Wilder's recurrence
`avg[i] = (avg[i-1] * (period - 1) + vals[i-1]) / period`. -/
def avgAt {α : Type} [Field α] (vals : List α) (period : Nat) (init : α) : Nat → α
  | 0 => if period = 0 then init else 0
  | i + 1 =>
      if i + 1 < period then 0
      else if i + 1 = period then init
      else (avgAt vals period init i * ((period : α) - 1) + vals.getD i 0) / (period : α)

/-- Method `calculate_rsi`: series shorter than `period + 1` get the constant
neutral 50 array; otherwise gains and losses are split out of the
consecutive deltas, averaged per `avgAt`, and each index is mapped to
`100 - 100 / (1 + rs)` with `rs = avg_gain / (avg_loss + 1e-10)`.
Stated over any linear ordered field so that it can be evaluated
exactly over `ℚ` and used over `ℝ` in the combined score. -/
def calculate_rsi {α : Type} [LinearOrderedField α] (closes : List α) (period : Nat) :
    List α :=
  if closes.length < period + 1 then List.replicate closes.length 50
  else
    let deltas := (closes.zip (closes.drop 1)).map (fun p => p.2 - p.1)
    let gains := deltas.map (fun d => if 0 < d then d else 0)
    let losses := deltas.map (fun d => if d < 0 then -d else 0)
    (List.range closes.length).map (fun i =>
      let ag := avgAt gains period ((gains.take period).sum / (period : α)) i
      let al := avgAt losses period ((losses.take period).sum / (period : α)) i
      100 - 100 / (1 + ag / (al + 1 / 10 ^ 10)))

/-- The slice `rsi[-lookback:]` that `calculate_combined_score` feeds to
`sigmoid_normalize` for the RSI component. -/
def rsiWindow {α : Type} [LinearOrderedField α] (lookback period : Nat)
    (closes : List α) : List α :=
  takeLast lookback (calculate_rsi closes period)

/-- Method `calculate_combined_score`: the four component scores blended by the
given weights, with a zero total weight replaced by 1.  The RSI
component is the last entry of the normalized window `rsi[-lookback:]`;
on an empty close series that window is empty and `rsi_score[-1]`
raises `IndexError`, modelled by `none`. -/
noncomputable def calculate_combined_score (k : ℝ) (lookback rsi_period : Nat)
    (closes volumes : List ℝ)
    (price_weight volume_weight rsi_weight volatility_weight : ℝ) : Option ℝ :=
  match (sigmoid_normalize k (rsiWindow lookback rsi_period closes)).getLast? with
  | none => none
  | some rsi_last =>
      some ((price_weight * calculate_price_score k closes +
             volume_weight * calculate_volume_score k lookback volumes +
             rsi_weight * rsi_last +
             volatility_weight * calculate_volatility_score k closes) /
            (if price_weight + volume_weight + rsi_weight + volatility_weight = 0 then 1
             else price_weight + volume_weight + rsi_weight + volatility_weight))

theorem length_calculate_rsi {α : Type} [LinearOrderedField α] (closes : List α)
    (period : Nat) : (calculate_rsi closes period).length = closes.length := by
  rw [calculate_rsi]
  split <;> simp

theorem takeLast_ne_nil {α : Type} (n : Nat) (l : List α) (h : l ≠ []) :
    takeLast n l ≠ [] := by
  rw [takeLast]
  split
  · exact h
  · have hl : 0 < l.length := List.length_pos.2 h
    rw [← List.length_pos, List.length_drop]
    omega

theorem convex_bound (w₁ w₂ w₃ w₄ s₁ s₂ s₃ s₄ : ℝ)
    (h₁ : 0 ≤ w₁) (h₂ : 0 ≤ w₂) (h₃ : 0 ≤ w₃) (h₄ : 0 ≤ w₄)
    (hsum : 0 < w₁ + w₂ + w₃ + w₄) :
    min (min s₁ s₂) (min s₃ s₄) ≤
      (w₁ * s₁ + w₂ * s₂ + w₃ * s₃ + w₄ * s₄) / (w₁ + w₂ + w₃ + w₄) ∧
    (w₁ * s₁ + w₂ * s₂ + w₃ * s₃ + w₄ * s₄) / (w₁ + w₂ + w₃ + w₄) ≤
      max (max s₁ s₂) (max s₃ s₄) := by
  have hm₁ : min (min s₁ s₂) (min s₃ s₄) ≤ s₁ := le_trans (min_le_left _ _) (min_le_left _ _)
  have hm₂ : min (min s₁ s₂) (min s₃ s₄) ≤ s₂ := le_trans (min_le_left _ _) (min_le_right _ _)
  have hm₃ : min (min s₁ s₂) (min s₃ s₄) ≤ s₃ := le_trans (min_le_right _ _) (min_le_left _ _)
  have hm₄ : min (min s₁ s₂) (min s₃ s₄) ≤ s₄ := le_trans (min_le_right _ _) (min_le_right _ _)
  have hM₁ : s₁ ≤ max (max s₁ s₂) (max s₃ s₄) := le_trans (le_max_left _ _) (le_max_left _ _)
  have hM₂ : s₂ ≤ max (max s₁ s₂) (max s₃ s₄) := le_trans (le_max_right _ _) (le_max_left _ _)
  have hM₃ : s₃ ≤ max (max s₁ s₂) (max s₃ s₄) := le_trans (le_max_left _ _) (le_max_right _ _)
  have hM₄ : s₄ ≤ max (max s₁ s₂) (max s₃ s₄) := le_trans (le_max_right _ _) (le_max_right _ _)
  constructor
  · rw [le_div_iff₀ hsum]
    nlinarith [mul_le_mul_of_nonneg_left hm₁ h₁, mul_le_mul_of_nonneg_left hm₂ h₂,
      mul_le_mul_of_nonneg_left hm₃ h₃, mul_le_mul_of_nonneg_left hm₄ h₄]
  · rw [div_le_iff₀ hsum]
    nlinarith [mul_le_mul_of_nonneg_left hM₁ h₁, mul_le_mul_of_nonneg_left hM₂ h₂,
      mul_le_mul_of_nonneg_left hM₃ h₃, mul_le_mul_of_nonneg_left hM₄ h₄]

/-- C7 (counterexample): on an empty close series `rsi[-lookback:]` is
empty, so `rsi_score[-1]` raises `IndexError` even with all weights
zero — the function is not total on every input. -/
theorem combined_score_raises_on_empty :
    calculate_combined_score 1 100 14 [] [] 0 0 0 0 = none := by
  rfl

/-- C7 (amended): on every nonempty close series the combined score is
defined; with non-negative weights of positive sum it is a convex
combination of the four component scores, lying between their minimum
and their maximum; with all four weights zero the total weight is
replaced by 1 and the combined score is exactly 0. -/
theorem combined_score_convex (k : ℝ) (lookback rsi_period : Nat)
    (closes volumes : List ℝ) (pw vw rw vow : ℝ) (h : closes ≠ []) :
    ∃ c, calculate_combined_score k lookback rsi_period closes volumes pw vw rw vow
          = some c ∧
      (0 ≤ pw → 0 ≤ vw → 0 ≤ rw → 0 ≤ vow → 0 < pw + vw + rw + vow →
        min (min (calculate_price_score k closes)
                 (calculate_volume_score k lookback volumes))
            (min ((sigmoid_normalize k (rsiWindow lookback rsi_period closes)).getLastD 0)
                 (calculate_volatility_score k closes)) ≤ c ∧
        c ≤ max (max (calculate_price_score k closes)
                     (calculate_volume_score k lookback volumes))
                (max ((sigmoid_normalize k (rsiWindow lookback rsi_period closes)).getLastD 0)
                     (calculate_volatility_score k closes))) ∧
      (pw = 0 → vw = 0 → rw = 0 → vow = 0 → c = 0) := by
  have hwin : rsiWindow lookback rsi_period closes ≠ [] := by
    apply takeLast_ne_nil
    rw [← List.length_pos, length_calculate_rsi]
    exact List.length_pos.2 h
  have hsig : sigmoid_normalize k (rsiWindow lookback rsi_period closes) ≠ [] := by
    rw [← List.length_pos, length_sigmoid_normalize, List.length_pos]
    exact hwin
  have hlast : (sigmoid_normalize k (rsiWindow lookback rsi_period closes)).getLast? =
      some ((sigmoid_normalize k (rsiWindow lookback rsi_period closes)).getLastD 0) := by
    rw [List.getLast?_eq_getLast_of_ne_nil hsig, List.getLastD_eq_getLast?,
      List.getLast?_eq_getLast_of_ne_nil hsig]
    rfl
  refine ⟨(pw * calculate_price_score k closes +
      vw * calculate_volume_score k lookback volumes +
      rw * (sigmoid_normalize k (rsiWindow lookback rsi_period closes)).getLastD 0 +
      vow * calculate_volatility_score k closes) /
      (if pw + vw + rw + vow = 0 then 1 else pw + vw + rw + vow), ?_, ?_, ?_⟩
  · rw [calculate_combined_score, hlast]
  · intro h₁ h₂ h₃ h₄ hsum
    rw [if_neg hsum.ne']
    exact convex_bound pw vw rw vow _ _ _ _ h₁ h₂ h₃ h₄ hsum
  · rintro rfl rfl rfl rfl
    norm_num

/-- Witness for the amended C7 on closes `[1, 2]`, volumes `[1, 2]` and
unit weights: the combined score is defined and lies between the least
and the greatest of the four components. -/
theorem combined_score_convex_witness :
    ∃ c, calculate_combined_score 1 100 14 [1, 2] [1, 2] 1 1 1 1 = some c ∧
      min (min (calculate_price_score 1 [1, 2]) (calculate_volume_score 1 100 [1, 2]))
          (min ((sigmoid_normalize 1 (rsiWindow 100 14 [1, 2])).getLastD 0)
               (calculate_volatility_score 1 [1, 2])) ≤ c ∧
      c ≤ max (max (calculate_price_score 1 [1, 2]) (calculate_volume_score 1 100 [1, 2]))
              (max ((sigmoid_normalize 1 (rsiWindow 100 14 [1, 2])).getLastD 0)
                   (calculate_volatility_score 1 [1, 2])) := by
  obtain ⟨c, hc, hconv, hzero⟩ :=
    combined_score_convex 1 100 14 [1, 2] [1, 2] 1 1 1 1 (by simp)
  exact ⟨c, hc, hconv (by norm_num) (by norm_num) (by norm_num) (by norm_num) (by norm_num)⟩

theorem avgAt_eq_zero_of_lt {α : Type} [Field α] (vals : List α) (period : Nat)
    (init : α) (i : Nat) (h0 : 0 < period) (h : i < period) :
    avgAt vals period init i = 0 := by
  cases i with
  | zero =>
      simp only [avgAt]
      exact if_neg h0.ne'
  | succ n =>
      simp only [avgAt]
      exact if_pos h

/-- C10 (amended): for every close series of length at least
`period + 1` (with `period ≥ 1`), the raw RSI array is exactly 0 — not
the neutral 50 — at every index below `period`, because the average-gain
and average-loss arrays are zero there; these leading zeros are included
in the window `rsi[-lookback:]` that `calculate_combined_score`
normalizes whenever the series length does not exceed `lookback` (for
longer series the window drops leading entries and can exclude them
all). -/
theorem rsi_leading_zeros {α : Type} [LinearOrderedField α] (closes : List α)
    (period lookback i : Nat) (h0 : 1 ≤ period) (hlen : period + 1 ≤ closes.length)
    (hi : i < period) :
    (calculate_rsi closes period).getD i 50 = 0 ∧
    (closes.length ≤ lookback → (0 : α) ∈ rsiWindow lookback period closes) := by
  have hi' : i < closes.length := by omega
  have hmain : (calculate_rsi closes period).getD i 50 = 0 := by
    rw [calculate_rsi, if_neg (by omega)]
    simp only [List.getD_eq_getElem?_getD, List.getElem?_map, List.getElem?_range hi',
      Option.map_some', Option.getD_some]
    rw [avgAt_eq_zero_of_lt _ _ _ i (by omega) hi,
      avgAt_eq_zero_of_lt _ _ _ i (by omega) hi]
    norm_num
  refine ⟨hmain, fun hle => ?_⟩
  have hwin : rsiWindow lookback period closes = calculate_rsi closes period := by
    rw [rsiWindow, takeLast]
    split
    · rfl
    · rw [length_calculate_rsi]
      have hz : closes.length - lookback = 0 := by omega
      rw [hz, List.drop_zero]
  have hlt : i < (calculate_rsi closes period).length := by
    rw [length_calculate_rsi]
    omega
  have hsome : (calculate_rsi closes period)[i]? = some ((calculate_rsi closes period).getD i 50) := by
    rw [List.getD_eq_getElem?_getD, List.getElem?_eq_getElem hlt]
    rfl
  rw [hmain] at hsome
  rw [hwin]
  exact List.getElem?_mem hsome

/-- The 15-point close series 1, 2, ..., 15. -/
def closes15 : List ℚ := (List.range 15).map (fun i => (i : ℚ) + 1)

/-- Witness for the amended C10: on the 15-point series with the default
period 14 and lookback 100, the raw RSI at index 0 is 0 and the value 0
appears in the normalization window. -/
theorem rsi_leading_zeros_witness :
    (calculate_rsi closes15 14).getD 0 50 = 0 ∧ (0 : ℚ) ∈ rsiWindow 100 14 closes15 := by
  have hl : closes15.length = 15 := rfl
  have h := rsi_leading_zeros closes15 14 100 0 (by norm_num) (by rw [hl]) (by norm_num)
  exact ⟨h.1, h.2 (by rw [hl]; norm_num)⟩

/-- The 114-point strictly increasing close series 1, 2, ..., 114. -/
def closes114 : List ℚ := (List.range 114).map (fun i => (i : ℚ) + 1)

set_option maxRecDepth 100000 in
/-- C10 (counterexample): on a 114-point strictly increasing series with
the default period 14 and lookback 100, the raw RSI is 0 at index 0, yet
the normalization window `rsi[-100:]` contains no zero at all: the
leading zeros at indices 0-13 are dropped by the slice, so they are not
included in the window that `calculate_combined_score` normalizes. -/
theorem rsi_zeros_outside_window :
    closes114.length = 114 ∧
    (calculate_rsi closes114 14).getD 0 50 = 0 ∧
    (0 : ℚ) ∉ rsiWindow 100 14 closes114 := by
  refine ⟨rfl, by with_unfolding_all rfl,
    of_decide_eq_false (by with_unfolding_all rfl)⟩

end TurboTrader
